import Mathlib

/-!
Shallow embedding of the heart-attack-prediction repository (src/model.py)
and proofs about its specification claims.

A pandas DataFrame is modelled column-major as an association list from
column names to columns of rational values (Python floats/ints are modelled
exactly by the rationals; the script drops missing values before the code
modelled here runs).  Column access on a missing name raises a KeyError in
pandas; the embedding returns Option.none there.  Functions that mutate
their argument in place (pandas inplace operations, column assignment) are
modelled by threading the heap cell holding the caller's dataframe through
each statement, returning both the function's return value and the caller's
dataframe as it stands after the call.
-/

namespace HeartModel

/-- A dataframe: ordered association list of column name to column values. -/
abbrev DataFrame := List (String × List ℚ)

/-- Column lookup, as in pandas df[c]: first entry with the given name;
none models the KeyError on a missing column. -/
def getCol? : DataFrame → String → Option (List ℚ)
  | [], _ => none
  | (c', v) :: t, c => if c' = c then some v else getCol? t c

/-- Column assignment df[c] = v: replaces the named column in place keeping
its position, or appends a new column at the end, as pandas does. -/
def setCol : DataFrame → String → List ℚ → DataFrame
  | [], c, v => [(c, v)]
  | (c', v') :: t, c, v =>
      if c' = c then (c, v) :: t else (c', v') :: setCol t c v

/-- df.drop(c, axis=1): removes the named column. -/
def dropCol (df : DataFrame) (c : String) : DataFrame :=
  df.filter (fun p => !(p.1 = c : Bool))

/-- The encoding lambda of process_target: lambda x: 1 if x > 0 else 0. -/
def encodeTarget (x : ℚ) : ℚ := if 0 < x then 1 else 0

/-- process_target (model.py lines 18-21): df['target'] =
df['num'].apply(lambda x: 1 if x > 0 else 0); df.drop('num', axis=1,
inplace=True); return df.  none models the KeyError when 'num' is absent. -/
def process_target (df : DataFrame) : Option DataFrame :=
  (getCol? df "num").map fun xs =>
    dropCol (setCol df "target" (xs.map encodeTarget)) "num"

/-- Pandas Series.quantile position for fraction q on n values:
q * (n - 1), linear-interpolation method (the pandas default). -/
def qpos (n : ℕ) (q : ℚ) : ℚ := q * ((n : ℚ) - 1)

/-- Index of the lower interpolation neighbour: floor of the position. -/
def qidx (n : ℕ) (q : ℚ) : ℕ := (⌊qpos n q⌋).toNat

/-- Linear-interpolation quantile of an already sorted list, following
pandas' default method: with pos = q*(n-1), i = floor pos, the result is
s[i] + (pos - i) * (s[i+1] - s[i]). -/
def quantileSorted (s : List ℚ) (q : ℚ) : ℚ :=
  let i := qidx s.length q
  let lo := s.getD i 0
  let hi := s.getD (i + 1) lo
  lo + (qpos s.length q - (i : ℚ)) * (hi - lo)

/-- df[col].quantile(q): sort the column, then interpolate. -/
def quantile (l : List ℚ) (q : ℚ) : ℚ :=
  quantileSorted (l.insertionSort (· ≤ ·)) q

/-- Lower Tukey fence Q1 - 1.5*IQR computed by handle_outliers. -/
def lowerBound (l : List ℚ) : ℚ :=
  quantile l (1/4) - 3/2 * (quantile l (3/4) - quantile l (1/4))

/-- Upper Tukey fence Q3 + 1.5*IQR computed by handle_outliers. -/
def upperBound (l : List ℚ) : ℚ :=
  quantile l (3/4) + 3/2 * (quantile l (3/4) - quantile l (1/4))

/-- One column body of handle_outliers: the two successive np.where
assignments, clamping first below the lower fence and then above the upper
fence, with both fences computed from the column before any clamping. -/
def clipColumn (l : List ℚ) : List ℚ :=
  let lb := lowerBound l
  let ub := upperBound l
  (l.map fun x => if x < lb then lb else x).map fun x =>
    if ub < x then ub else x

/-- The five bounded columns of handle_outliers (model.py line 50). -/
def boundedColumns : List String :=
  ["age", "trestbps", "chol", "thalach", "oldpeak"]

/-- One loop iteration of handle_outliers on the heap cell holding df:
reads the column (KeyError if absent), writes the clamped column back. -/
def clipStep (df : DataFrame) (c : String) : Option DataFrame :=
  (getCol? df c).map fun l => setCol df c (clipColumn l)

/-- Runs the handle_outliers loop over a list of columns, threading the
heap cell holding the caller's dataframe; the first component is the
function's return value (none models the escaping KeyError) and the second
is the caller's dataframe after the call, mutations included. -/
def runCols : List String → DataFrame → Option DataFrame × DataFrame
  | [], df => (some df, df)
  | c :: cs, df =>
      match clipStep df c with
      | none => (none, df)
      | some df' => runCols cs df'

/-- handle_outliers (model.py lines 49-58) as a call: return value paired
with the caller's dataframe after the call. -/
def handle_outliersCall (df : DataFrame) : Option DataFrame × DataFrame :=
  runCols boundedColumns df

/-- handle_outliers' return value. -/
def handle_outliers (df : DataFrame) : Option DataFrame :=
  (handle_outliersCall df).1

/-! ### Metrics (model.py lines 24-29)

Binary labels are 0/1 integers; sklearn's binary metrics count a label as
positive exactly when it equals pos_label = 1.  The zip truncates to the
common length, which is a no-op on the equal-length arrays produced by a
split. -/

/-- True positives: pairs predicted 1 with true label 1. -/
def truePos (yTest yPred : List ℕ) : ℕ :=
  (yTest.zip yPred).countP fun p => p.1 = 1 ∧ p.2 = 1

/-- False positives: pairs predicted 1 with true label not 1. -/
def falsePos (yTest yPred : List ℕ) : ℕ :=
  (yTest.zip yPred).countP fun p => ¬p.1 = 1 ∧ p.2 = 1

/-- False negatives: pairs with true label 1 predicted not 1. -/
def falseNeg (yTest yPred : List ℕ) : ℕ :=
  (yTest.zip yPred).countP fun p => p.1 = 1 ∧ ¬p.2 = 1

/-- sklearn precision_score with an explicit zero_division value: TP/(TP+FP),
or the zero_division value when no positive was predicted. -/
def precision_score (yTest yPred : List ℕ) (zeroDivision : ℚ) : ℚ :=
  let tp := truePos yTest yPred
  let fp := falsePos yTest yPred
  if tp + fp = 0 then zeroDivision else (tp : ℚ) / ((tp : ℚ) + (fp : ℚ))

/-- sklearn recall_score with an explicit zero_division value: TP/(TP+FN),
or the zero_division value when no true positive label exists. -/
def recall_score (yTest yPred : List ℕ) (zeroDivision : ℚ) : ℚ :=
  let tp := truePos yTest yPred
  let fn := falseNeg yTest yPred
  if tp + fn = 0 then zeroDivision else (tp : ℚ) / ((tp : ℚ) + (fn : ℚ))

/-- sklearn accuracy_score: fraction of matching pairs. -/
def accuracy_score (yTest yPred : List ℕ) : ℚ :=
  ((yTest.zip yPred).countP fun p => p.1 = p.2 : ℚ) / (yTest.length : ℚ)

/-- sklearn mean_squared_error on integer labels. -/
def mean_squared_error (yTest yPred : List ℕ) : ℚ :=
  ((yTest.zip yPred).map fun p => ((p.1 : ℚ) - (p.2 : ℚ)) ^ 2).sum /
    (yTest.length : ℚ)

/-- results (model.py lines 24-29): computes precision and recall with
zero_division=1, accuracy and MSE, and prints them; modelled as returning
the four computed values in order. -/
def results (yTest yPred : List ℕ) : ℚ × ℚ × ℚ × ℚ :=
  (precision_score yTest yPred 1, recall_score yTest yPred 1,
   accuracy_score yTest yPred, mean_squared_error yTest yPred)

/-! ### Evaluation harness (model.py lines 122-166)

Everything a pipeline does (imputation, scaling, fitting, prediction) is an
opaque deterministic library computation; what the harness itself does with
the four returned test accuracies and with the split seeds is modelled
exactly.  The four fields follow the insertion order of the accuracies
dict: KNeighbors, Logistic Regression, SVM, XGBoost. -/

/-- One value per model, in the accuracies dict's insertion order. -/
structure ModelVals (α : Type) where
  kneighbors : α
  logisticRegression : α
  svm : α
  xgboost : α
  deriving DecidableEq, Repr

/-- The accuracies dict: one trace (list of test accuracies) per model. -/
abbrev Accs := ModelVals (List ℚ)

/-- np.mean of a list: the sum (np.sum folds left from 0) over the length. -/
def npMean (l : List ℚ) : ℚ := l.foldl (· + ·) 0 / (l.length : ℚ)

/-- The loop of evaluate_models_iteratively (model.py lines 125-136): after
n iterations, each model's trace holds its test accuracies in order, one
appended per iteration; acc i gives the four pipeline results of
iteration i (each pipeline run on that iteration's fresh random split). -/
def runIterations (acc : ℕ → ModelVals ℚ) : ℕ → Accs
  | 0 => ⟨[], [], [], []⟩
  | n + 1 =>
      let p := runIterations acc n
      ⟨p.kneighbors ++ [(acc n).kneighbors],
       p.logisticRegression ++ [(acc n).logisticRegression],
       p.svm ++ [(acc n).svm],
       p.xgboost ++ [(acc n).xgboost]⟩

/-- The mean_accuracies dict comprehension (model.py line 138). -/
def mean_accuracies (a : Accs) : ModelVals ℚ :=
  ⟨npMean a.kneighbors, npMean a.logisticRegression,
   npMean a.svm, npMean a.xgboost⟩

/-- One model's row in plot_performance (model.py lines 155-159):
sorted(acc_list) then acc_list_sorted[0] and acc_list_sorted[-1]; indexing
an empty sorted list raises IndexError, modelled as none.  On success the
row is (min accuracy, mean, max accuracy). -/
def plotRange (accList : List ℚ) (mean : ℚ) : Option (ℚ × ℚ × ℚ) :=
  let s := accList.insertionSort (· ≤ ·)
  match s.head?, s.getLast? with
  | some mn, some mx => some (mn, mean, mx)
  | _, _ => none

/-- plot_performance (model.py lines 152-166): draws one min/mean/max row
per model, in dict order; none models the IndexError escaping the call. -/
def plot_performance (a : Accs) (m : ModelVals ℚ) : Option (List (ℚ × ℚ × ℚ)) := do
  let kn ← plotRange a.kneighbors m.kneighbors
  let lr ← plotRange a.logisticRegression m.logisticRegression
  let sv ← plotRange a.svm m.svm
  let xg ← plotRange a.xgboost m.xgboost
  pure [kn, lr, sv, xg]

/-- evaluate_models_iteratively (model.py lines 122-140): runs the loop,
computes per-model means, and hands both to plot_performance; modelled as
returning the traces, the means, and the plot outcome. -/
def evaluate_models_iteratively (acc : ℕ → ModelVals ℚ) (num : ℕ) :
    Accs × ModelVals ℚ × Option (List (ℚ × ℚ × ℚ)) :=
  let a := runIterations acc num
  let m := mean_accuracies a
  (a, m, plot_performance a m)

/-! ### Splits and the single-run entry point (model.py lines 143-149)

sklearn's train_test_split is deterministic in its inputs, the test_size
and the seed it draws its permutation from: random_state when given, the
ambient global RNG state otherwise.  The library internals are an opaque
function lib of the data, the test size and the effective seed. -/

/-- sklearn train_test_split: applies the opaque deterministic library
split to the effective seed, which is random_state if provided and the
ambient RNG state otherwise. -/
def train_test_split {α β : Type} (lib : β → ℚ → ℕ → α) (Xy : β)
    (testSize : ℚ) (randomState : Option ℕ) (ambient : ℕ) : α :=
  lib Xy testSize (randomState.getD ambient)

/-- The split made by evaluate_models_once (model.py line 144):
train_test_split(X, y, test_size=0.2, random_state=42), executed with
ambient RNG state ambient. -/
def evaluate_models_once_split {α β : Type} (lib : β → ℚ → ℕ → α) (Xy : β)
    (ambient : ℕ) : α :=
  train_test_split lib Xy (2/10) (some 42) ambient

/-! ### Startup file handling (model.py lines 169-178) -/

/-- Outcome of main's data-loading prologue: either the dataframe was
loaded (after some number of fetch_data calls), or the process printed a
message and exited with the given status code. -/
inductive LoadOutcome where
  | loaded (fetchCalls : ℕ)
  | exited (status : ℕ) (fetchCalls : ℕ) (message : String)
  deriving DecidableEq, Repr

/-- Number of fetch_data invocations an outcome performed. -/
def LoadOutcome.fetchCount : LoadOutcome → ℕ
  | .loaded n => n
  | .exited _ n _ => n

/-- main's load prologue (model.py lines 169-178): try pd.read_csv; on
FileNotFoundError call fetch_data() once and retry the read; a second
FileNotFoundError prints the error message and exits with status 1.
present0 is whether the CSV exists at startup, presentAfterFetch whether it
exists after the fetch_data call. -/
def main_load (present0 presentAfterFetch : Bool) : LoadOutcome :=
  if present0 then .loaded 0
  else if presentAfterFetch then .loaded 1
  else .exited 1 1 "Error fetching data. Please try again."

/-! ## Basic lemmas about the dataframe model -/

theorem getCol?_setCol_self (df : DataFrame) (c : String) (v : List ℚ) :
    getCol? (setCol df c v) c = some v := by
  induction df with
  | nil => simp [setCol, getCol?]
  | cons p t ih =>
      by_cases h : p.1 = c
      · simp [setCol, getCol?, h]
      · simp [setCol, getCol?, h, ih]

theorem getCol?_setCol_ne (df : DataFrame) {c c' : String} (h : c' ≠ c)
    (v : List ℚ) : getCol? (setCol df c v) c' = getCol? df c' := by
  have h' : ¬c = c' := fun hh => h hh.symm
  induction df with
  | nil => simp [setCol, getCol?, h']
  | cons p t ih =>
      obtain ⟨pc, pv⟩ := p
      by_cases hp : pc = c
      · subst hp
        simp [setCol, getCol?, h']
      · by_cases hp' : pc = c'
        · simp [setCol, getCol?, hp, hp', h, h']
        · simp [setCol, getCol?, hp, hp', ih]

theorem getCol?_dropCol_self (df : DataFrame) (c : String) :
    getCol? (dropCol df c) c = none := by
  induction df with
  | nil => simp [dropCol, getCol?]
  | cons p t ih =>
      obtain ⟨pc, pv⟩ := p
      by_cases hp : pc = c
      · simpa [dropCol, List.filter_cons, hp] using ih
      · simpa [dropCol, List.filter_cons, getCol?, hp] using ih

theorem getCol?_dropCol_ne (df : DataFrame) {c c' : String} (h : c' ≠ c) :
    getCol? (dropCol df c) c' = getCol? df c' := by
  induction df with
  | nil => simp [dropCol]
  | cons p t ih =>
      obtain ⟨pc, pv⟩ := p
      have h' : ¬c = c' := fun hh => h hh.symm
      by_cases hp : pc = c
      · simpa [dropCol, List.filter_cons, getCol?, hp, h'] using ih
      · by_cases hp' : pc = c'
        · simp [dropCol, List.filter_cons, getCol?, hp, hp', h, h']
        · simpa [dropCol, List.filter_cons, getCol?, hp, hp'] using ih

theorem setCol_eq_self (df : DataFrame) {c : String} {v : List ℚ}
    (h : getCol? df c = some v) : setCol df c v = df := by
  induction df with
  | nil => simp [getCol?] at h
  | cons p t ih =>
      obtain ⟨pc, pv⟩ := p
      by_cases hp : pc = c
      · subst hp
        simp [getCol?] at h
        simp [setCol, h]
      · simp [getCol?, hp] at h
        simp [setCol, hp, ih h]

/-! ## Claim theorems: target encoder and metrics -/

/-- Claim C1: for every input dataframe containing a num column, the target
encoder produces a target column whose values are only 0 or 1, with value 1
exactly when the source severity value is strictly positive, and it removes
the num column from the result. -/
theorem claim_C1 (df df' : DataFrame) (xs : List ℚ)
    (hnum : getCol? df "num" = some xs)
    (hrun : process_target df = some df') :
    getCol? df' "target" = some (xs.map encodeTarget) ∧
    (∀ v ∈ xs.map encodeTarget, v = 0 ∨ v = 1) ∧
    (∀ i, i < xs.length →
      ((xs.map encodeTarget).getD i 0 = 1 ↔ 0 < xs.getD i 0)) ∧
    getCol? df' "num" = none := by
  have hdf' : df' = dropCol (setCol df "target" (xs.map encodeTarget)) "num" := by
    rw [process_target, hnum] at hrun
    exact (Option.some_injective _ hrun).symm
  subst hdf'
  have hne : ("target" : String) ≠ "num" := by decide
  refine ⟨?_, ?_, ?_, ?_⟩
  · rw [getCol?_dropCol_ne _ hne, getCol?_setCol_self]
  · intro v hv
    obtain ⟨x, -, rfl⟩ := List.mem_map.mp hv
    by_cases hx : 0 < x
    · right; simp [encodeTarget, hx]
    · left; simp [encodeTarget, hx]
  · intro i hi
    have hmap : (xs.map encodeTarget).getD i 0 = encodeTarget (xs.getD i 0) := by
      rw [List.getD_eq_getElem _ _ (by simpa using hi),
        List.getD_eq_getElem _ _ hi, List.getElem_map]
    rw [hmap]
    unfold encodeTarget
    by_cases hx : 0 < xs.getD i 0
    · simp [hx]
    · simp [hx]
  · exact getCol?_dropCol_self _ _

/-- Witness for claim C1 at a concrete dataframe with severity scores
0, 2 and -1. -/
theorem claim_C1_witness :
    getCol? [("target", [(0 : ℚ), 1, 0])] "target" =
        some ([(0 : ℚ), 2, -1].map encodeTarget) ∧
    (∀ v ∈ [(0 : ℚ), 2, -1].map encodeTarget, v = 0 ∨ v = 1) ∧
    (∀ i, i < [(0 : ℚ), 2, -1].length →
      (([(0 : ℚ), 2, -1].map encodeTarget).getD i 0 = 1 ↔
        0 < [(0 : ℚ), 2, -1].getD i 0)) ∧
    getCol? [("target", [(0 : ℚ), 1, 0])] "num" = none :=
  claim_C1 [("num", [(0 : ℚ), 2, -1])] [("target", [(0 : ℚ), 1, 0])]
    [(0 : ℚ), 2, -1] (by with_unfolding_all decide)
    (by with_unfolding_all decide)

/-- Claim C4: whenever the precision or recall denominator is zero, the
metrics step returns 1 for the affected metric (sklearn zero_division=1);
zero-denominator cases are never an exception (the function is total). -/
theorem claim_C4 (yTest yPred : List ℕ) :
    (truePos yTest yPred + falsePos yTest yPred = 0 →
      (results yTest yPred).1 = 1) ∧
    (truePos yTest yPred + falseNeg yTest yPred = 0 →
      (results yTest yPred).2.1 = 1) := by
  constructor
  · intro h
    simp [results, precision_score, h]
  · intro h
    simp [results, recall_score, h]

/-- Witness for claim C4: y_pred all zeros with a positive in y_test gives
precision 1, and y_test all zeros with a positive prediction gives
recall 1. -/
theorem claim_C4_witness :
    (results [1, 0] [0, 0]).1 = 1 ∧ (results [0, 0] [1, 1]).2.1 = 1 :=
  ⟨(claim_C4 [1, 0] [0, 0]).1 (by decide),
   (claim_C4 [0, 0] [1, 1]).2 (by decide)⟩

/-! ## Claim theorems: startup file handling and the fixed-seed split -/

/-- Claim C5: a missing input CSV is recovered from by exactly one
fetch_data call and a re-read; if the file is still missing the process
prints the error message and exits with status 1; fetch_data is never
called more than once. -/
theorem claim_C5 (present0 presentAfterFetch : Bool) :
    (main_load present0 presentAfterFetch).fetchCount ≤ 1 ∧
    (present0 = false →
      (main_load present0 presentAfterFetch).fetchCount = 1) ∧
    (present0 = false → presentAfterFetch = true →
      main_load present0 presentAfterFetch = .loaded 1) ∧
    (present0 = false → presentAfterFetch = false →
      main_load present0 presentAfterFetch =
        .exited 1 1 "Error fetching data. Please try again.") := by
  cases present0 <;> cases presentAfterFetch <;>
    simp [main_load, LoadOutcome.fetchCount]

/-- Witness for claim C5 at the two concrete missing-file environments. -/
theorem claim_C5_witness :
    main_load false true = .loaded 1 ∧
    main_load false false =
      .exited 1 1 "Error fetching data. Please try again." :=
  ⟨(claim_C5 false true).2.2.1 rfl rfl, (claim_C5 false false).2.2.2 rfl rfl⟩

/-- Claim C6: the single-run entry point passes the fixed seed 42 and the
fixed 80/20 ratio to train_test_split, so two executions on the same input
produce identical train/test partitions whatever the ambient RNG states of
the two runs are. -/
theorem claim_C6 {α β : Type} (lib : β → ℚ → ℕ → α) (Xy : β)
    (ambient1 ambient2 : ℕ) :
    evaluate_models_once_split lib Xy ambient1 =
      evaluate_models_once_split lib Xy ambient2 ∧
    evaluate_models_once_split lib Xy ambient1 = lib Xy (2/10) 42 :=
  ⟨rfl, rfl⟩

/-! ## Claim theorems: the iterative harness and its reporter -/

theorem runIterations_length (acc : ℕ → ModelVals ℚ) (n : ℕ) :
    (runIterations acc n).kneighbors.length = n ∧
    (runIterations acc n).logisticRegression.length = n ∧
    (runIterations acc n).svm.length = n ∧
    (runIterations acc n).xgboost.length = n := by
  induction n with
  | zero => simp [runIterations]
  | succ k ih =>
      obtain ⟨h1, h2, h3, h4⟩ := ih
      simp [runIterations, h1, h2, h3, h4]

theorem npMean_eq_sum_div (l : List ℚ) :
    npMean l = l.sum / (l.length : ℚ) := by
  rw [npMean, ← List.sum_eq_foldl]

/-- Claim C3: for every iteration count and every sequence of per-iteration
pipeline accuracies, the iterative harness produces for each of the four
models a trace with exactly num entries, and the mean it hands to the
reporter equals the arithmetic mean (sum over length) of that trace. -/
theorem claim_C3 (acc : ℕ → ModelVals ℚ) (num : ℕ) :
    ((evaluate_models_iteratively acc num).1.kneighbors.length = num ∧
     (evaluate_models_iteratively acc num).1.logisticRegression.length = num ∧
     (evaluate_models_iteratively acc num).1.svm.length = num ∧
     (evaluate_models_iteratively acc num).1.xgboost.length = num) ∧
    ((evaluate_models_iteratively acc num).2.1.kneighbors =
        (evaluate_models_iteratively acc num).1.kneighbors.sum /
          ((evaluate_models_iteratively acc num).1.kneighbors.length : ℚ) ∧
     (evaluate_models_iteratively acc num).2.1.logisticRegression =
        (evaluate_models_iteratively acc num).1.logisticRegression.sum /
          ((evaluate_models_iteratively acc num).1.logisticRegression.length : ℚ) ∧
     (evaluate_models_iteratively acc num).2.1.svm =
        (evaluate_models_iteratively acc num).1.svm.sum /
          ((evaluate_models_iteratively acc num).1.svm.length : ℚ) ∧
     (evaluate_models_iteratively acc num).2.1.xgboost =
        (evaluate_models_iteratively acc num).1.xgboost.sum /
          ((evaluate_models_iteratively acc num).1.xgboost.length : ℚ)) := by
  refine ⟨runIterations_length acc num, ?_, ?_, ?_, ?_⟩ <;>
    simp [evaluate_models_iteratively, mean_accuracies, npMean_eq_sum_div]

theorem plotRange_isSome (l : List ℚ) (m : ℚ) (h : l ≠ []) :
    (plotRange l m).isSome = true := by
  have hlen : (l.insertionSort (· ≤ ·)).length = l.length :=
    List.length_insertionSort _ l
  have hne : l.insertionSort (· ≤ ·) ≠ [] := by
    intro hnil
    apply h
    rw [← List.length_eq_zero, ← hlen, hnil]
    rfl
  rw [plotRange]
  obtain ⟨a, t, hat⟩ := List.exists_cons_of_ne_nil hne
  rw [hat]
  have hgl : (a :: t).getLast? = some ((a :: t).getLast (by simp)) :=
    List.getLast?_eq_getLast _ _
  simp [hgl]

/-- Claim C8: with zero iterations each accuracy trace is empty and the
range plot's indexing of the first element of an empty sorted list fails
(no plot is produced), while any positive iteration count makes the
reporting step succeed. -/
theorem claim_C8 :
    (∀ acc : ℕ → ModelVals ℚ,
      (evaluate_models_iteratively acc 0).2.2 = none) ∧
    (∀ (acc : ℕ → ModelVals ℚ) (num : ℕ), 1 ≤ num →
      ((evaluate_models_iteratively acc num).2.2).isSome = true) := by
  constructor
  · intro acc
    simp [evaluate_models_iteratively, runIterations, plot_performance,
      plotRange, List.insertionSort]
  · intro acc num hnum
    obtain ⟨h1, h2, h3, h4⟩ := runIterations_length acc num
    have hne : ∀ l : List ℚ, l.length = num → l ≠ [] := by
      intro l hl hnil
      rw [hnil] at hl
      simp at hl
      omega
    have p1 := plotRange_isSome _ (mean_accuracies (runIterations acc num)).kneighbors (hne _ h1)
    have p2 := plotRange_isSome _ (mean_accuracies (runIterations acc num)).logisticRegression (hne _ h2)
    have p3 := plotRange_isSome _ (mean_accuracies (runIterations acc num)).svm (hne _ h3)
    have p4 := plotRange_isSome _ (mean_accuracies (runIterations acc num)).xgboost (hne _ h4)
    obtain ⟨r1, hr1⟩ := Option.isSome_iff_exists.mp p1
    obtain ⟨r2, hr2⟩ := Option.isSome_iff_exists.mp p2
    obtain ⟨r3, hr3⟩ := Option.isSome_iff_exists.mp p3
    obtain ⟨r4, hr4⟩ := Option.isSome_iff_exists.mp p4
    simp [evaluate_models_iteratively, plot_performance, hr1, hr2, hr3, hr4]

/-- Witness for claim C8's positive part at one iteration of a constant
accuracy sequence. -/
theorem claim_C8_witness :
    ((evaluate_models_iteratively (fun _ => ⟨1/2, 1/2, 1/2, 1/2⟩) 1).2.2).isSome
      = true :=
  claim_C8.2 (fun _ => ⟨1/2, 1/2, 1/2, 1/2⟩) 1 (by decide)

/-! ## Structure of the handle_outliers loop -/

/-- The clamp a single value undergoes in handle_outliers: the lower-fence
np.where first, then the upper-fence np.where. -/
def clipValue (lb ub x : ℚ) : ℚ :=
  let x1 := if x < lb then lb else x
  if ub < x1 then ub else x1

theorem clipColumn_eq_map (l : List ℚ) :
    clipColumn l = l.map (clipValue (lowerBound l) (upperBound l)) := by
  rw [clipColumn, List.map_map]
  rfl

theorem clipValue_mem_Icc {lb ub : ℚ} (h : lb ≤ ub) (x : ℚ) :
    lb ≤ clipValue lb ub x ∧ clipValue lb ub x ≤ ub := by
  rw [clipValue]
  split_ifs <;> constructor <;> linarith

/-- If the return value of the loop is some dataframe, the heap cell
holding the caller's dataframe ends up equal to it. -/
theorem runCols_snd_eq {cols : List String} {df d' : DataFrame}
    (h : (runCols cols df).1 = some d') : (runCols cols df).2 = d' := by
  induction cols generalizing df with
  | nil =>
      simp [runCols] at h ⊢
      exact h
  | cons c cs ih =>
      rw [runCols] at h ⊢
      revert h
      cases hc : clipStep df c with
      | none => intro h; exact Option.noConfusion h
      | some d1 => intro h; exact ih h

/-- Column-level description of a successful handle_outliers loop over
pairwise distinct column names: columns outside the list are untouched,
and each listed column is replaced by its clamped version computed from
its own pre-call values. -/
theorem runCols_lookup : ∀ (cols : List String), cols.Nodup →
    ∀ {df d' : DataFrame}, (runCols cols df).1 = some d' →
    (∀ c, c ∉ cols → getCol? d' c = getCol? df c) ∧
    (∀ c ∈ cols, getCol? d' c = (getCol? df c).map clipColumn) := by
  intro cols
  induction cols with
  | nil =>
      intro _ df d' h
      simp [runCols] at h
      subst h
      exact ⟨fun c _ => rfl, fun c hc => absurd hc (List.not_mem_nil c)⟩
  | cons c cs ih =>
      intro hnd df d' h
      rw [runCols] at h
      revert h
      cases hc : clipStep df c with
      | none => intro h; exact Option.noConfusion h
      | some d1 =>
          intro h
          replace h : (runCols cs d1).1 = some d' := h
          obtain ⟨l, hl, hd1⟩ : ∃ l, getCol? df c = some l ∧
              d1 = setCol df c (clipColumn l) := by
            rw [clipStep] at hc
            cases hgl : getCol? df c with
            | none => rw [hgl] at hc; simp at hc
            | some l =>
                rw [hgl] at hc
                simp at hc
                exact ⟨l, rfl, hc.symm⟩
          have hcnotcs : c ∉ cs := (List.nodup_cons.mp hnd).1
          have hcsnd : cs.Nodup := (List.nodup_cons.mp hnd).2
          obtain ⟨hout, hin⟩ := ih hcsnd h
          constructor
          · intro x hx
            have hxc : x ≠ c := fun hh => hx (hh ▸ List.mem_cons_self c cs)
            have hxcs : x ∉ cs := fun hh => hx (List.mem_cons_of_mem c hh)
            rw [hout x hxcs, hd1, getCol?_setCol_ne _ hxc]
          · intro x hx
            rcases List.mem_cons.mp hx with hxc | hxcs
            · subst hxc
              rw [hout x hcnotcs, hd1, getCol?_setCol_self, hl]
              rfl
            · have hxc : x ≠ c := fun hh =>
                hcnotcs (hh ▸ hxcs)
              rw [hin x hxcs, hd1, getCol?_setCol_ne _ hxc]

theorem boundedColumns_nodup : boundedColumns.Nodup := by decide

/-- Claim C7 as stated is false: handle_outliers mutates the caller's
dataframe, shown here on a concrete dataframe whose age column contains
the outlier 8, which the call clamps to 5 in place. -/
theorem claim_C7_counterexample :
    (handle_outliersCall
        [("age", [(0 : ℚ), 0, 0, 8]), ("trestbps", [0, 0, 0, 0]),
         ("chol", [0, 0, 0, 0]), ("thalach", [0, 0, 0, 0]),
         ("oldpeak", [0, 0, 0, 0])]).2 ≠
      [("age", [(0 : ℚ), 0, 0, 8]), ("trestbps", [0, 0, 0, 0]),
       ("chol", [0, 0, 0, 0]), ("thalach", [0, 0, 0, 0]),
       ("oldpeak", [0, 0, 0, 0])] := by
  with_unfolding_all decide

/-- Claim C7, amended: handle_outliers is not pure; it mutates its input
in place, so after a normally returning call the caller's dataframe equals
the returned clipped dataset rather than the original. -/
theorem claim_C7 (df d' : DataFrame) (h : handle_outliers df = some d') :
    (handle_outliersCall df).2 = d' :=
  runCols_snd_eq h

/-- Witness for the amended claim C7 at a concrete dataframe. -/
theorem claim_C7_witness :
    (handle_outliersCall
        [("age", [(0 : ℚ), 0, 0, 12]), ("trestbps", [0, 0, 0, 0]),
         ("chol", [0, 0, 0, 0]), ("thalach", [0, 0, 0, 0]),
         ("oldpeak", [0, 0, 0, 0])]).2 =
      [("age", [(0 : ℚ), 0, 0, 15/2]), ("trestbps", [0, 0, 0, 0]),
       ("chol", [0, 0, 0, 0]), ("thalach", [0, 0, 0, 0]),
       ("oldpeak", [0, 0, 0, 0])] :=
  claim_C7 _ _ (by with_unfolding_all decide)

/-- Claim C10: handle_outliers leaves every column outside the five
bounded ones unchanged, rewrites each bounded column by a rowwise clamp
(so row order is preserved position by position), and preserves every
column's row count. -/
theorem claim_C10 (df d' : DataFrame) (h : handle_outliers df = some d') :
    (∀ c, c ∉ boundedColumns → getCol? d' c = getCol? df c) ∧
    (∀ c ∈ boundedColumns, getCol? d' c =
      (getCol? df c).map fun l =>
        l.map (clipValue (lowerBound l) (upperBound l))) ∧
    (∀ c l l', getCol? df c = some l → getCol? d' c = some l' →
      l'.length = l.length) := by
  obtain ⟨hout, hin⟩ := runCols_lookup boundedColumns boundedColumns_nodup h
  refine ⟨hout, ?_, ?_⟩
  · intro c hc
    rw [hin c hc]
    cases getCol? df c with
    | none => rfl
    | some l => simp [clipColumn_eq_map]
  · intro c l l' hl hl'
    by_cases hc : c ∈ boundedColumns
    · rw [hin c hc, hl] at hl'
      simp at hl'
      rw [← hl', clipColumn_eq_map, List.length_map]
    · rw [hout c hc, hl] at hl'
      simp at hl'
      rw [hl']

/-- Witness for claim C10 at a concrete dataframe with a non-bounded sex
column and a clamped age outlier. -/
theorem claim_C10_witness :
    getCol?
        [("age", [(0 : ℚ), 0, 0, 5]), ("trestbps", [0, 0, 0, 0]),
         ("chol", [0, 0, 0, 0]), ("thalach", [0, 0, 0, 0]),
         ("oldpeak", [0, 0, 0, 0]), ("sex", [1, 0, 1, 0])] "sex" =
      getCol?
        [("age", [(0 : ℚ), 0, 0, 8]), ("trestbps", [0, 0, 0, 0]),
         ("chol", [0, 0, 0, 0]), ("thalach", [0, 0, 0, 0]),
         ("oldpeak", [0, 0, 0, 0]), ("sex", [1, 0, 1, 0])] "sex" :=
  (claim_C10
    [("age", [(0 : ℚ), 0, 0, 8]), ("trestbps", [0, 0, 0, 0]),
     ("chol", [0, 0, 0, 0]), ("thalach", [0, 0, 0, 0]),
     ("oldpeak", [0, 0, 0, 0]), ("sex", [1, 0, 1, 0])]
    [("age", [(0 : ℚ), 0, 0, 5]), ("trestbps", [0, 0, 0, 0]),
     ("chol", [0, 0, 0, 0]), ("thalach", [0, 0, 0, 0]),
     ("oldpeak", [0, 0, 0, 0]), ("sex", [1, 0, 1, 0])]
    (by with_unfolding_all decide)).1 "sex" (by decide)

/-! ## Quantile monotonicity

The pandas linear-interpolation quantile is monotone in the fraction, which
is what makes Q1 at most Q3 and hence the lower Tukey fence at most the
upper one. -/

theorem getD_le_getD_sorted {s : List ℚ} (hs : s.Sorted (· ≤ ·)) {i j : ℕ}
    (hij : i ≤ j) (hj : j < s.length) (d d' : ℚ) :
    s.getD i d ≤ s.getD j d' := by
  have hi : i < s.length := lt_of_le_of_lt hij hj
  rw [List.getD_eq_getElem s d hi, List.getD_eq_getElem s d' hj]
  have := hs.rel_get_of_le (a := ⟨i, hi⟩) (b := ⟨j, hj⟩) hij
  simpa using this

theorem qidx_cast {n : ℕ} {r : ℚ} (h : 0 ≤ qpos n r) :
    ((qidx n r : ℕ) : ℚ) = (⌊qpos n r⌋ : ℚ) := by
  have h0 : 0 ≤ ⌊qpos n r⌋ := Int.le_floor.mpr (by exact_mod_cast h)
  rw [qidx]
  norm_cast
  exact Int.toNat_of_nonneg h0

theorem frac_nonneg {n : ℕ} {r : ℚ} (h : 0 ≤ qpos n r) :
    0 ≤ qpos n r - ((qidx n r : ℕ) : ℚ) := by
  rw [qidx_cast h]
  linarith [Int.floor_le (qpos n r)]

theorem frac_lt_one {n : ℕ} {r : ℚ} (h : 0 ≤ qpos n r) :
    qpos n r - ((qidx n r : ℕ) : ℚ) < 1 := by
  rw [qidx_cast h]
  linarith [Int.lt_floor_add_one (qpos n r)]

theorem qidx_lt_length {n : ℕ} {r : ℚ} (_hn : 1 ≤ n) (h0 : 0 ≤ qpos n r)
    (h1 : qpos n r ≤ (n : ℚ) - 1) : qidx n r < n := by
  have hcast : (((n : ℤ) - 1 : ℤ) : ℚ) = (n : ℚ) - 1 := by push_cast; ring
  have hub : ⌊qpos n r⌋ ≤ (n : ℤ) - 1 := by
    calc ⌊qpos n r⌋ ≤ ⌊(n : ℚ) - 1⌋ := Int.floor_le_floor h1
    _ = (n : ℤ) - 1 := by rw [← hcast, Int.floor_intCast]
  have hlb : 0 ≤ ⌊qpos n r⌋ := Int.le_floor.mpr (by exact_mod_cast h0)
  rw [qidx]
  omega

theorem quantileSorted_ge_lo {s : List ℚ} (hs : s.Sorted (· ≤ ·)) {r : ℚ}
    (h0 : 0 ≤ qpos s.length r) (hlt : qidx s.length r < s.length) :
    s.getD (qidx s.length r) 0 ≤ quantileSorted s r := by
  rw [quantileSorted]
  have hf0 := frac_nonneg h0
  by_cases hc : qidx s.length r + 1 < s.length
  · have hlohi := getD_le_getD_sorted hs (Nat.le_succ _) hc
      (0 : ℚ) (s.getD (qidx s.length r) 0)
    nlinarith [mul_nonneg hf0 (sub_nonneg.mpr hlohi)]
  · rw [List.getD_eq_default s _ (by omega : s.length ≤ qidx s.length r + 1)]
    nlinarith

theorem quantileSorted_le_hi {s : List ℚ} (hs : s.Sorted (· ≤ ·)) {r : ℚ}
    (h0 : 0 ≤ qpos s.length r) (hlt : qidx s.length r < s.length) :
    quantileSorted s r ≤
      s.getD (qidx s.length r + 1) (s.getD (qidx s.length r) 0) := by
  rw [quantileSorted]
  have hf0 := frac_nonneg h0
  have hf1 := le_of_lt (frac_lt_one h0)
  by_cases hc : qidx s.length r + 1 < s.length
  · have hlohi := getD_le_getD_sorted hs (Nat.le_succ _) hc
      (0 : ℚ) (s.getD (qidx s.length r) 0)
    nlinarith [mul_le_mul_of_nonneg_right hf1 (sub_nonneg.mpr hlohi)]
  · rw [List.getD_eq_default s _ (by omega : s.length ≤ qidx s.length r + 1)]
    nlinarith

theorem quantileSorted_mono {s : List ℚ} (hs : s.Sorted (· ≤ ·))
    (hne : s ≠ []) {p q : ℚ} (hp : 0 ≤ p) (hpq : p ≤ q) (hq : q ≤ 1) :
    quantileSorted s p ≤ quantileSorted s q := by
  have hn : 1 ≤ s.length := List.length_pos.mpr hne
  have hN : (0 : ℚ) ≤ (s.length : ℚ) - 1 := by
    have h1 : (1 : ℚ) ≤ (s.length : ℚ) := by exact_mod_cast hn
    linarith
  have hpp : 0 ≤ qpos s.length p := mul_nonneg hp hN
  have hqq : 0 ≤ qpos s.length q := mul_nonneg (le_trans hp hpq) hN
  have hle : qpos s.length p ≤ qpos s.length q :=
    mul_le_mul_of_nonneg_right hpq hN
  have hpN : qpos s.length p ≤ (s.length : ℚ) - 1 := by
    have := mul_le_mul_of_nonneg_right (le_trans hpq hq) hN
    rw [one_mul] at this
    exact this
  have hqN : qpos s.length q ≤ (s.length : ℚ) - 1 := by
    have := mul_le_mul_of_nonneg_right hq hN
    rw [one_mul] at this
    exact this
  have hplt : qidx s.length p < s.length := qidx_lt_length hn hpp hpN
  have hqlt : qidx s.length q < s.length := qidx_lt_length hn hqq hqN
  by_cases hisame : qidx s.length p = qidx s.length q
  · rw [quantileSorted, quantileSorted, hisame]
    have hf0q := frac_nonneg hqq
    have hfrac_le : qpos s.length p - ((qidx s.length q : ℕ) : ℚ) ≤
        qpos s.length q - ((qidx s.length q : ℕ) : ℚ) := by linarith
    by_cases hc : qidx s.length q + 1 < s.length
    · have hlohi := getD_le_getD_sorted hs (Nat.le_succ _) hc
        (0 : ℚ) (s.getD (qidx s.length q) 0)
      nlinarith [mul_le_mul_of_nonneg_right hfrac_le
        (sub_nonneg.mpr hlohi)]
    · rw [List.getD_eq_default s _
        (by omega : s.length ≤ qidx s.length q + 1)]
      nlinarith
  · have hilt : qidx s.length p < qidx s.length q := by
      have hfle : ⌊qpos s.length p⌋ ≤ ⌊qpos s.length q⌋ :=
        Int.floor_le_floor hle
      have : qidx s.length p ≤ qidx s.length q := by
        rw [qidx, qidx]
        omega
      omega
    calc quantileSorted s p ≤
        s.getD (qidx s.length p + 1) (s.getD (qidx s.length p) 0) :=
          quantileSorted_le_hi hs hpp hplt
    _ ≤ s.getD (qidx s.length q) 0 :=
          getD_le_getD_sorted hs (by omega) hqlt _ _
    _ ≤ quantileSorted s q := quantileSorted_ge_lo hs hqq hqlt

theorem quantile_q1_le_q3 (l : List ℚ) (h : l ≠ []) :
    quantile l (1/4) ≤ quantile l (3/4) := by
  have hsorted : (l.insertionSort (· ≤ ·)).Sorted (· ≤ ·) :=
    List.sorted_insertionSort (· ≤ ·) l
  have hne : l.insertionSort (· ≤ ·) ≠ [] := by
    intro hnil
    apply h
    have := List.length_insertionSort (· ≤ ·) l
    rw [hnil] at this
    exact List.length_eq_zero.mp this.symm
  exact quantileSorted_mono hsorted hne (by norm_num) (by norm_num)
    (by norm_num)

theorem lowerBound_le_upperBound (l : List ℚ) (h : l ≠ []) :
    lowerBound l ≤ upperBound l := by
  have := quantile_q1_le_q3 l h
  rw [lowerBound, upperBound]
  linarith

/-- Claim C2: after handle_outliers, every value of each bounded column
lies within the Tukey fences computed from that column's values at clip
time (equal to its pre-call values, since the loop touches each column
exactly once and the columns are distinct). -/
theorem claim_C2 (df d' : DataFrame) (h : handle_outliers df = some d') :
    ∀ c ∈ boundedColumns, ∀ l l', getCol? df c = some l →
      getCol? d' c = some l' →
      ∀ v ∈ l', lowerBound l ≤ v ∧ v ≤ upperBound l := by
  obtain ⟨-, hin⟩ := runCols_lookup boundedColumns boundedColumns_nodup h
  intro c hc l l' hl hl' v hv
  rw [hin c hc, hl] at hl'
  simp at hl'
  rw [← hl', clipColumn_eq_map] at hv
  obtain ⟨x, -, rfl⟩ := List.mem_map.mp hv
  have hlne : l ≠ [] := by
    rintro rfl
    simp at hv
  exact clipValue_mem_Icc (lowerBound_le_upperBound l hlne) x

/-- Witness for claim C2: in a concrete dataframe, the clipped value 5 of
the age column lies within the age fences. -/
theorem claim_C2_witness :
    lowerBound [(0 : ℚ), 0, 0, 8] ≤ 5 ∧ (5 : ℚ) ≤ upperBound [0, 0, 0, 8] :=
  claim_C2
    [("age", [(0 : ℚ), 0, 0, 8]), ("trestbps", [0, 0, 0, 0]),
     ("chol", [0, 0, 0, 0]), ("thalach", [0, 0, 0, 0]),
     ("oldpeak", [0, 0, 0, 0])]
    [("age", [(0 : ℚ), 0, 0, 5]), ("trestbps", [0, 0, 0, 0]),
     ("chol", [0, 0, 0, 0]), ("thalach", [0, 0, 0, 0]),
     ("oldpeak", [0, 0, 0, 0])]
    (by with_unfolding_all decide) "age" (by decide)
    [(0 : ℚ), 0, 0, 8] [(0 : ℚ), 0, 0, 5]
    (by with_unfolding_all decide) (by with_unfolding_all decide)
    5 (by with_unfolding_all decide)

/-! ## Idempotence of the outlier clipper -/

theorem clipColumn_eq_self {l : List ℚ}
    (h : ∀ x ∈ l, lowerBound l ≤ x ∧ x ≤ upperBound l) :
    clipColumn l = l := by
  rw [clipColumn_eq_map]
  have hid : ∀ x ∈ l, clipValue (lowerBound l) (upperBound l) x = x := by
    intro x hx
    obtain ⟨h1, h2⟩ := h x hx
    rw [clipValue]
    split_ifs <;> linarith
  calc l.map (clipValue (lowerBound l) (upperBound l)) = l.map id :=
        List.map_congr_left hid
  _ = l := List.map_id l

theorem runCols_eq_self {df : DataFrame} : ∀ cols : List String,
    (∀ c ∈ cols, ∃ l, getCol? df c = some l ∧ clipColumn l = l) →
    runCols cols df = (some df, df) := by
  intro cols
  induction cols with
  | nil => intro _; rfl
  | cons c cs ih =>
      intro h
      obtain ⟨l, hl, hcl⟩ := h c (List.mem_cons_self c cs)
      have hstep : clipStep df c = some df := by
        rw [clipStep, hl]
        simp [hcl, setCol_eq_self df hl]
      rw [runCols, hstep]
      exact ih fun x hx => h x (List.mem_cons_of_mem c hx)

theorem runCols_mem_isSome : ∀ (cols : List String) {df d' : DataFrame},
    (runCols cols df).1 = some d' →
    ∀ c ∈ cols, (getCol? df c).isSome = true := by
  intro cols
  induction cols with
  | nil => intro df d' _ c hc; exact absurd hc (List.not_mem_nil c)
  | cons c0 cs ih =>
      intro df d' h c hc
      rw [runCols] at h
      revert h
      cases hstep : clipStep df c0 with
      | none => intro h; exact Option.noConfusion h
      | some d1 =>
          intro h
          replace h : (runCols cs d1).1 = some d' := h
          obtain ⟨l, hl, hd1⟩ : ∃ l, getCol? df c0 = some l ∧
              d1 = setCol df c0 (clipColumn l) := by
            rw [clipStep] at hstep
            cases hgl : getCol? df c0 with
            | none => rw [hgl] at hstep; simp at hstep
            | some l =>
                rw [hgl] at hstep
                simp at hstep
                exact ⟨l, rfl, hstep.symm⟩
          rcases List.mem_cons.mp hc with rfl | hcs
          · rw [hl]; rfl
          · by_cases hcc : c = c0
            · subst hcc; rw [hl]; rfl
            · have hck := ih h c hcs
              rw [hd1, getCol?_setCol_ne _ hcc] at hck
              exact hck

theorem map_fixes_of_map_eq {f : ℚ → ℚ} : ∀ {l : List ℚ},
    l.map f = l → ∀ x ∈ l, f x = x := by
  intro l
  induction l with
  | nil => intro _ x hx; exact absurd hx (List.not_mem_nil x)
  | cons a t ih =>
      intro h x hx
      rw [List.map_cons] at h
      injection h with h1 h2
      rcases List.mem_cons.mp hx with rfl | hxt
      · exact h1
      · exact ih h2 x hxt

theorem clipColumn_fixes_iff (l : List ℚ) :
    clipColumn l = l ↔ ∀ x ∈ l, lowerBound l ≤ x ∧ x ≤ upperBound l := by
  constructor
  · intro heq
    by_cases hne : l = []
    · subst hne
      intro x hx
      exact absurd hx (List.not_mem_nil x)
    · have hlbub := lowerBound_le_upperBound l hne
      intro x hx
      have hmap : l.map (clipValue (lowerBound l) (upperBound l)) = l := by
        rw [← clipColumn_eq_map]
        exact heq
      have hfx := map_fixes_of_map_eq hmap x hx
      rw [← hfx]
      exact clipValue_mem_Icc hlbub x
  · exact clipColumn_eq_self

/-- Claim C9 as stated is false: handle_outliers is not idempotent.  On a
concrete dataframe whose age column is [0,0,0,0,0,0,8,8], the first
application clamps the 8s to the upper fence 5, but the fences recomputed
from the clipped column are strictly tighter, so a second application
clamps the 5s further down to 25/8. -/
theorem claim_C9_counterexample :
    handle_outliers
        [("age", [(0 : ℚ), 0, 0, 0, 0, 0, 8, 8]),
         ("trestbps", [0, 0, 0, 0, 0, 0, 0, 0]),
         ("chol", [0, 0, 0, 0, 0, 0, 0, 0]),
         ("thalach", [0, 0, 0, 0, 0, 0, 0, 0]),
         ("oldpeak", [0, 0, 0, 0, 0, 0, 0, 0])] =
      some
        [("age", [(0 : ℚ), 0, 0, 0, 0, 0, 5, 5]),
         ("trestbps", [0, 0, 0, 0, 0, 0, 0, 0]),
         ("chol", [0, 0, 0, 0, 0, 0, 0, 0]),
         ("thalach", [0, 0, 0, 0, 0, 0, 0, 0]),
         ("oldpeak", [0, 0, 0, 0, 0, 0, 0, 0])] ∧
    handle_outliers
        [("age", [(0 : ℚ), 0, 0, 0, 0, 0, 5, 5]),
         ("trestbps", [0, 0, 0, 0, 0, 0, 0, 0]),
         ("chol", [0, 0, 0, 0, 0, 0, 0, 0]),
         ("thalach", [0, 0, 0, 0, 0, 0, 0, 0]),
         ("oldpeak", [0, 0, 0, 0, 0, 0, 0, 0])] ≠
      some
        [("age", [(0 : ℚ), 0, 0, 0, 0, 0, 5, 5]),
         ("trestbps", [0, 0, 0, 0, 0, 0, 0, 0]),
         ("chol", [0, 0, 0, 0, 0, 0, 0, 0]),
         ("thalach", [0, 0, 0, 0, 0, 0, 0, 0]),
         ("oldpeak", [0, 0, 0, 0, 0, 0, 0, 0])] := by
  constructor
  · with_unfolding_all decide
  · with_unfolding_all decide

/-- Claim C9, amended: the outlier clipper is not idempotent in general
(a second application can clip strictly further, because the fences
recomputed from a clipped column can be strictly tighter); it is the
identity exactly on those dataframes whose five bounded columns are all
present and already lie within their own fences, and on those dataframes
it is idempotent. -/
theorem claim_C9 (df : DataFrame) :
    (handle_outliers df = some df ↔
      (∀ c ∈ boundedColumns, ∃ l, getCol? df c = some l ∧
        ∀ x ∈ l, lowerBound l ≤ x ∧ x ≤ upperBound l)) ∧
    (handle_outliers df = some df →
      (handle_outliers df).bind handle_outliers = handle_outliers df) := by
  constructor
  · constructor
    · intro h
      obtain ⟨-, hin⟩ := runCols_lookup boundedColumns boundedColumns_nodup h
      intro c hc
      obtain ⟨l, hl⟩ := Option.isSome_iff_exists.mp
        (runCols_mem_isSome boundedColumns h c hc)
      refine ⟨l, hl, ?_⟩
      have heq : clipColumn l = l := by
        have hcol := hin c hc
        rw [hl] at hcol
        simp at hcol
        exact hcol.symm
      exact (clipColumn_fixes_iff l).mp heq
    · intro h5
      have hrun : runCols boundedColumns df = (some df, df) := by
        apply runCols_eq_self
        intro c hc
        obtain ⟨l, hl, hbounds⟩ := h5 c hc
        exact ⟨l, hl, (clipColumn_fixes_iff l).mpr hbounds⟩
      rw [handle_outliers, handle_outliersCall, hrun]
  · intro h1
    simp [h1]

/-- Witness for the amended claim C9: a concrete in-fence dataframe on
which handle_outliers is the identity. -/
theorem claim_C9_witness :
    handle_outliers
        [("age", [(0 : ℚ), 1, 2]), ("trestbps", [0, 1, 2]),
         ("chol", [0, 1, 2]), ("thalach", [0, 1, 2]),
         ("oldpeak", [0, 1, 2])] =
      some
        [("age", [(0 : ℚ), 1, 2]), ("trestbps", [0, 1, 2]),
         ("chol", [0, 1, 2]), ("thalach", [0, 1, 2]),
         ("oldpeak", [0, 1, 2])] :=
  (claim_C9
    [("age", [(0 : ℚ), 1, 2]), ("trestbps", [0, 1, 2]),
     ("chol", [0, 1, 2]), ("thalach", [0, 1, 2]),
     ("oldpeak", [0, 1, 2])]).1.mpr
    (by
      intro c hc
      refine ⟨[(0 : ℚ), 1, 2], ?_, ?_⟩
      · fin_cases hc <;> with_unfolding_all decide
      · with_unfolding_all decide)

end HeartModel
